import Mathlib

/-!
Verification of the LayoutFlow DSL editor's layout resolution engine
(`src/utils/layoutUtils.ts`, types from `src/types.ts`).

Numbers are modelled as rationals (exact arithmetic); the TS code runs on
IEEE doubles but every algebraic claim of the spec is about the exact
mathematical content of the formulas.
-/

namespace LayoutFlow

/-- Unit tokens from `src/types.ts` (`UnitType`). -/
inductive UnitType
  | px
  | percentParentW
  | percentParentH
  | vw
  | vh
  deriving DecidableEq, BEq, Repr

/-- A magnitude together with a unit (`LayoutValue` in `src/types.ts`). -/
structure LayoutValue where
  value : ℚ
  unit : UnitType
  deriving DecidableEq, Repr

/-- Anchor tokens.  TS keeps two string-union types `AnchorX`/`AnchorY`;
the transform functions accept their union, so we use one inductive with
the shared `center`. -/
inductive Anchor
  | left
  | center
  | right
  | top
  | bottom
  deriving DecidableEq, BEq, Repr

/-- The positional axes accepted by the anchor transforms (`axis: 'x' | 'y'`). -/
inductive Axis
  | x
  | y
  deriving DecidableEq, Repr

/-- Viewport from `src/types.ts`. -/
structure Viewport where
  name : String
  width : ℚ
  height : ℚ
  icon : String
  deriving DecidableEq, Repr

/-- A plain rectangle, the shape of the `parentRect` arguments in
`layoutUtils.ts`.  Functions that only read `width`/`height` still receive
a full rectangle (TS structural typing). -/
structure Rect where
  x : ℚ
  y : ℚ
  width : ℚ
  height : ℚ
  deriving DecidableEq, Repr

/-- `LayoutConfig` from `src/types.ts`.  `zIndex`, `anchorX`, `anchorY` and
`isContainer` are modelled as options because the runtime code defends
against their absence (`|| 0`, `|| 'left'`, `|| 'top'`, `=== false`). -/
structure LayoutConfig where
  x : LayoutValue
  y : LayoutValue
  width : LayoutValue
  height : LayoutValue
  zIndex : Option Int
  anchorX : Option Anchor
  anchorY : Option Anchor
  isContainer : Option Bool
  deriving DecidableEq, Repr

/-- The ephemeral `_runtime` record of `LayoutElement`. -/
structure RuntimeRect where
  x : ℚ
  y : ℚ
  width : ℚ
  height : ℚ
  parentId : Option String
  deriving DecidableEq, Repr

/-- Shape kind of an element (`type: 'rect' | 'circle'`). -/
inductive ShapeType
  | rect
  | circle
  deriving DecidableEq, Repr

/-- `LayoutElement` from `src/types.ts`; `runtime` is the optional
`_runtime` field. -/
structure LayoutElement where
  id : String
  type : ShapeType
  name : String
  layout : LayoutConfig
  runtime : Option RuntimeRect
  deriving DecidableEq, Repr

/-- The non-null assertion `el._runtime!` used throughout the pipeline
(always defined there because Pass 1 populates every element). -/
def rtOf (el : LayoutElement) : RuntimeRect :=
  el.runtime.getD ⟨0, 0, 0, 0, none⟩

/-- Replace an element's runtime record, as the object spreads
`{...el, _runtime: r}` do in the source. -/
def setRuntime (el : LayoutElement) (r : RuntimeRect) : LayoutElement :=
  { el with runtime := some r }

/-- Drop the runtime record (an element as it is persisted / loaded). -/
def stripRuntime (el : LayoutElement) : LayoutElement :=
  { el with runtime := none }

/-- `resolveLength` from `layoutUtils.ts`: unit value to raw pixel length
(magnitude only).  The TS `default` branch is unreachable for the enum. -/
def resolveLength (val : LayoutValue) (viewport : Viewport) (parentRect : Rect) : ℚ :=
  match val.unit with
  | .px => val.value
  | .percentParentW => (val.value / 100) * parentRect.width
  | .percentParentH => (val.value / 100) * parentRect.height
  | .vw => (val.value / 100) * viewport.width
  | .vh => (val.value / 100) * viewport.height

/-- The reference rectangle selected inside both converters: the source
computes `isGlobal = unit === VW || unit === VH` and picks the viewport at
the origin when it holds, else the parent rectangle. -/
def refRectFor (u : UnitType) (viewport : Viewport) (parentRect : Rect) : Rect :=
  if u = .vw ∨ u = .vh then ⟨0, 0, viewport.width, viewport.height⟩
  else parentRect

/-- The per-axis anchor arithmetic of `convertOffsetToAbsolute` (the two
axis branches of the source).  An anchor that does not belong to the axis
falls through to the trailing `return 0` of the source. -/
def anchorForward (length : ℚ) (anchor : Anchor) (axis : Axis)
    (elementSize : ℚ) (refRect : Rect) : ℚ :=
  match axis, anchor with
  | .x, .left => refRect.x + length
  | .x, .right => refRect.x + refRect.width - length - elementSize
  | .x, .center => refRect.x + refRect.width / 2 + length - elementSize / 2
  | .y, .top => refRect.y + length
  | .y, .bottom => refRect.y + refRect.height - length - elementSize
  | .y, .center => refRect.y + refRect.height / 2 + length - elementSize / 2
  | _, _ => 0

/-- `convertOffsetToAbsolute` from `layoutUtils.ts`: DSL value + anchor to
absolute canvas coordinate. -/
def convertOffsetToAbsolute (val : LayoutValue) (anchor : Anchor) (axis : Axis)
    (elementSize : ℚ) (viewport : Viewport) (parentRect : Rect) : ℚ :=
  anchorForward (resolveLength val viewport parentRect) anchor axis elementSize
    (refRectFor val.unit viewport parentRect)

/-- The per-axis pixel-offset computation of `convertAbsoluteToOffset`
(its `pixelOffset` variable; it starts at 0 and stays 0 on an anchor that
does not belong to the axis). -/
def anchorInverse (absPos : ℚ) (anchor : Anchor) (axis : Axis)
    (elementSize : ℚ) (refRect : Rect) : ℚ :=
  match axis, anchor with
  | .x, .left => absPos - refRect.x
  | .x, .right => refRect.x + refRect.width - absPos - elementSize
  | .x, .center => (absPos + elementSize / 2) - (refRect.x + refRect.width / 2)
  | .y, .top => absPos - refRect.y
  | .y, .bottom => refRect.y + refRect.height - absPos - elementSize
  | .y, .center => (absPos + elementSize / 2) - (refRect.y + refRect.height / 2)
  | _, _ => 0

/-- The final unit-conversion switch, written once: this exact switch is
inlined at the end of `convertAbsoluteToOffset` in the source and repeated
verbatim as the body of `fromPixels`. -/
def pixelsToUnit (pixelOffset : ℚ) (targetUnit : UnitType) (viewport : Viewport)
    (parentRect : Rect) : ℚ :=
  match targetUnit with
  | .px => pixelOffset
  | .percentParentW =>
    if parentRect.width = 0 then 0 else (pixelOffset / parentRect.width) * 100
  | .percentParentH =>
    if parentRect.height = 0 then 0 else (pixelOffset / parentRect.height) * 100
  | .vw =>
    if viewport.width = 0 then 0 else (pixelOffset / viewport.width) * 100
  | .vh =>
    if viewport.height = 0 then 0 else (pixelOffset / viewport.height) * 100

/-- `convertAbsoluteToOffset` from `layoutUtils.ts`: absolute canvas
coordinate back to a relative offset in `targetUnit`. -/
def convertAbsoluteToOffset (absPos : ℚ) (anchor : Anchor) (axis : Axis)
    (elementSize : ℚ) (targetUnit : UnitType) (viewport : Viewport)
    (parentRect : Rect) : ℚ :=
  pixelsToUnit
    (anchorInverse absPos anchor axis elementSize
      (refRectFor targetUnit viewport parentRect))
    targetUnit viewport parentRect

/-- `toPixels` from `layoutUtils.ts` (legacy magnitude helper). -/
def toPixels (val : LayoutValue) (viewport : Viewport) (parentRect : Rect) : ℚ :=
  resolveLength val viewport parentRect

/-- `fromPixels` from `layoutUtils.ts` (its body is the same switch as the
tail of `convertAbsoluteToOffset`). -/
def fromPixels (pixels : ℚ) (targetUnit : UnitType) (viewport : Viewport)
    (parentRect : Rect) : ℚ :=
  pixelsToUnit pixels targetUnit viewport parentRect

/-- The reference rectangle as the spec describes it (section 4.2):
the viewport positioned at the origin for viewport-relative units,
otherwise the resolved parent rectangle. -/
def specRefRect (u : UnitType) (viewport : Viewport) (parentRect : Rect) : Rect :=
  match u with
  | .vw => ⟨0, 0, viewport.width, viewport.height⟩
  | .vh => ⟨0, 0, viewport.width, viewport.height⟩
  | _ => parentRect

/-- The reference dimension relevant to a unit is nonzero (trivially true
for pixels).  This is the side condition under which the percent math is
invertible. -/
def refDimOk (u : UnitType) (viewport : Viewport) (parentRect : Rect) : Prop :=
  match u with
  | .px => True
  | .percentParentW => parentRect.width ≠ 0
  | .percentParentH => parentRect.height ≠ 0
  | .vw => viewport.width ≠ 0
  | .vh => viewport.height ≠ 0

/-- The anchor belongs to the axis (the TS signatures pair `AnchorX` with
axis `'x'` and `AnchorY` with `'y'`). -/
def anchorOnAxis (anchor : Anchor) (axis : Axis) : Prop :=
  match axis with
  | .x => anchor = .left ∨ anchor = .center ∨ anchor = .right
  | .y => anchor = .top ∨ anchor = .center ∨ anchor = .bottom

/-- Pass 1 of `calculateRuntimePositions`: estimate one element's geometry
with the viewport as its parent (anchors default to left/top as in the
source's `|| 'left'` / `|| 'top'`). -/
def estimateElement (viewport : Viewport) (el : LayoutElement) : LayoutElement :=
  let parentRect : Rect := ⟨0, 0, viewport.width, viewport.height⟩
  let width := toPixels el.layout.width viewport parentRect
  let height := toPixels el.layout.height viewport parentRect
  let x := convertOffsetToAbsolute el.layout.x (el.layout.anchorX.getD .left) .x
    width viewport parentRect
  let y := convertOffsetToAbsolute el.layout.y (el.layout.anchorY.getD .top) .y
    height viewport parentRect
  setRuntime el ⟨x, y, width, height, none⟩

/-- Pass 1 over the whole element list (`estimatedElements` in the source). -/
def estimatedElements (elements : List LayoutElement) (viewport : Viewport) :
    List LayoutElement :=
  elements.map (estimateElement viewport)

/-- The candidate-parent filter of Pass 2: not the child itself, not an
explicit `isContainer: false`, and the child's estimated center point lies
within the candidate's estimated rectangle (closed bounds). -/
def isCandidateParent (child p : LayoutElement) : Bool :=
  if p.id = child.id then false
  else if p.layout.isContainer = some false then false
  else
    let pRect := rtOf p
    let cx := (rtOf child).x + (rtOf child).width / 2
    let cy := (rtOf child).y + (rtOf child).height / 2
    decide (pRect.x ≤ cx) && decide (cx ≤ pRect.x + pRect.width) &&
      decide (pRect.y ≤ cy) && decide (cy ≤ pRect.y + pRect.height)

/-- The Pass-2 sort comparator: z-index difference (missing z treated as 0)
when nonzero, otherwise estimated-area difference. -/
def compareCand (a b : LayoutElement) : ℚ :=
  let zDiff : ℚ :=
    ((b.layout.zIndex.getD 0 : Int) : ℚ) - ((a.layout.zIndex.getD 0 : Int) : ℚ)
  if zDiff ≠ 0 then zDiff
  else ((rtOf a).width * (rtOf a).height) - ((rtOf b).width * (rtOf b).height)

/-- Keep `a` no later than `b` exactly when the comparator does not order
`b` strictly first.  With a consistent comparator (this one is
antisymmetric) this relation determines the output of the stable
`Array.prototype.sort` (stability is guaranteed by ES2019). -/
def candLE (a b : LayoutElement) : Bool :=
  decide (compareCand a b ≤ 0)

/-- Insert into an already-sorted list, before the first element the new
one need not follow: the standard stable insertion. -/
def stableInsert (le : α → α → Bool) (a : α) : List α → List α
  | [] => [a]
  | b :: l => if le a b then a :: b :: l else b :: stableInsert le a l

/-- Stable insertion sort: the unique stable sort for a total, transitive
`le`, hence the list an ES2019 `Array.prototype.sort` produces. -/
def stableSort (le : α → α → Bool) : List α → List α
  | [] => []
  | a :: l => stableInsert le a (stableSort le l)

/-- Pass 2 for one child: filter candidates, sort, take the first;
an empty candidate list leaves the child (and its root parent) unchanged. -/
def assignParent (ests : List LayoutElement) (child : LayoutElement) :
    LayoutElement :=
  let potentialParents := ests.filter (fun p => isCandidateParent child p)
  let sorted := stableSort candLE potentialParents
  match sorted.head? with
  | some parent =>
    { child with runtime := some { rtOf child with parentId := some parent.id } }
  | none => child

/-- Passes 1 and 2 composed (`withParents` in the source). -/
def withParents (elements : List LayoutElement) (viewport : Viewport) :
    List LayoutElement :=
  let ests := estimatedElements elements viewport
  ests.map (assignParent ests)

/-- The Pass-3 memo table (`finalMap`), as an association list whose most
recent binding wins, matching `Map.set`/`Map.get`. -/
abbrev FinalMap := List (String × LayoutElement)

/-- `finalMap.get` (None when absent). -/
def mapGet (m : FinalMap) (k : String) : Option LayoutElement :=
  match m with
  | [] => none
  | (k1, v) :: rest => if k1 = k then some v else mapGet rest k

/-- `finalMap.set`. -/
def mapSet (m : FinalMap) (k : String) (v : LayoutElement) : FinalMap :=
  (k, v) :: m

/-- The tail of `calculateElement`: recompute geometry against the chosen
parent rectangle, memoize and return. -/
def finishCalc (vp : Viewport) (id : String) (el : LayoutElement)
    (parentRect : Rect) (m : FinalMap) : Option LayoutElement × FinalMap :=
  let width := toPixels el.layout.width vp parentRect
  let height := toPixels el.layout.height vp parentRect
  let x := convertOffsetToAbsolute el.layout.x (el.layout.anchorX.getD .left) .x
    width vp parentRect
  let y := convertOffsetToAbsolute el.layout.y (el.layout.anchorY.getD .top) .y
    height vp parentRect
  let res := setRuntime el ⟨x, y, width, height, (rtOf el).parentId⟩
  (some res, mapSet m id res)

/-- The reference rectangle derived from a resolved parent, with the
viewport as fallback when the parent or its runtime is missing (the
`if (parentEl && parentEl._runtime)` guard of the source). -/
def parentRectFrom (vp : Viewport) (parentEl : Option LayoutElement) : Rect :=
  match parentEl with
  | some pEl =>
    match pEl.runtime with
    | some prt => ⟨prt.x, prt.y, prt.width, prt.height⟩
    | none => ⟨0, 0, vp.width, vp.height⟩
  | none => ⟨0, 0, vp.width, vp.height⟩

/-- `calculateElement` from Pass 3, with explicit fuel standing in for the
unbounded JS recursion (the C5 theorem shows `length + 1` fuel always
suffices).  The outer `Option` is fuel exhaustion only; the inner
`Option LayoutElement` mirrors the possibly-undefined value the source can
return or look up (a `find` miss, impossible inside the pipeline).  The
`pid = ""` test mirrors the JS truthiness check `if (el._runtime?.parentId)`
on a string. -/
def calcElement (wps : List LayoutElement) (vp : Viewport) :
    Nat → String → List String → FinalMap →
      Option (Option LayoutElement × FinalMap)
  | 0, _, _, _ => none
  | fuel + 1, id, stack, m =>
    match mapGet m id with
    | some r => some (some r, m)
    | none =>
      if id ∈ stack then
        some (wps.find? (fun e => decide (e.id = id)), m)
      else
        match wps.find? (fun e => decide (e.id = id)) with
        | none => some (none, m)
        | some el =>
          match (rtOf el).parentId with
          | some pid =>
            if pid = "" then
              some (finishCalc vp id el ⟨0, 0, vp.width, vp.height⟩ m)
            else
              match calcElement wps vp fuel pid (stack ++ [id]) m with
              | none => none
              | some (parentEl, m1) =>
                some (finishCalc vp id el (parentRectFrom vp parentEl) m1)
          | none => some (finishCalc vp id el ⟨0, 0, vp.width, vp.height⟩ m)

/-- One driver step: `calculateElement(el.id)` from the top level (empty
stack, fuel `length + 1`, which the C5 theorem shows always suffices). -/
def runCalcStep (wps : List LayoutElement) (vp : Viewport) (m : FinalMap)
    (el : LayoutElement) : FinalMap :=
  match calcElement wps vp (wps.length + 1) el.id [] m with
  | some (_, m1) => m1
  | none => m

/-- The Pass-3 driver `withParents.forEach(el => calculateElement(el.id))`,
threading the memo table. -/
def runCalc (wps : List LayoutElement) (vp : Viewport) : FinalMap :=
  wps.foldl (runCalcStep wps vp) []

/-- `calculateRuntimePositions` from `layoutUtils.ts`: the whole three-pass
pipeline.  The final `finalMap.get(el.id)!` is modelled with the input
element as the (unreachable) fallback. -/
def calculateRuntimePositions (elements : List LayoutElement)
    (viewport : Viewport) : List LayoutElement :=
  let wps := withParents elements viewport
  let finalMap := runCalc wps viewport
  elements.map (fun el => (mapGet finalMap el.id).getD el)

/-- The ids of `wps` not yet on the resolution stack: the termination
measure of `calculateElement` (each recursive call pushes a fresh id). -/
def pendingCount (wps : List LayoutElement) (stack : List String) : Nat :=
  ((wps.map fun e => e.id).filter fun i => decide (i ∉ stack)).length

/-- Shape of every memo-table entry: the Pass-2 element found under the
key, with only its runtime rectangle recomputed and its Pass-2 parent
assignment kept. -/
def ShapeOK (wps : List LayoutElement) (k : String) (v : LayoutElement) : Prop :=
  ∃ w r, wps.find? (fun e => decide (e.id = k)) = some w ∧
    v = setRuntime w r ∧ r.parentId = (rtOf w).parentId

/-- All memo-table entries are well-shaped. -/
def InvMap (wps : List LayoutElement) (m : FinalMap) : Prop :=
  ∀ k v, mapGet m k = some v → ShapeOK wps k v

/-- Effective z-order of an element: a missing z is treated as 0. -/
def zOf (e : LayoutElement) : Int :=
  e.layout.zIndex.getD 0

/-- Estimated rectangle area of an element. -/
def areaOf (e : LayoutElement) : ℚ :=
  (rtOf e).width * (rtOf e).height

/-- The candidate order the spec describes: `c` precedes-or-ties `d` when
`c` has strictly higher z-order, or equal z-order and no larger estimated
area.  Further ties are broken by input order, which `List.find?` over the
candidate list realises. -/
def specBeats (c d : LayoutElement) : Prop :=
  zOf d < zOf c ∨ (zOf c = zOf d ∧ areaOf c ≤ areaOf d)

instance specBeatsDec (c d : LayoutElement) : Decidable (specBeats c d) := by
  unfold specBeats
  infer_instance

/-- Scenario A viewport (1280 × 800). -/
def sceneViewport : Viewport := ⟨"desktop", 1280, 800, "icon"⟩

/-- Scenario A container C: x=0px left, y=0px top, width 50% of parent
width, height 50% of parent height, z=1, isContainer=true. -/
def sceneC : LayoutElement :=
  ⟨"C", .rect, "Container",
    ⟨⟨0, .px⟩, ⟨0, .px⟩, ⟨50, .percentParentW⟩, ⟨50, .percentParentH⟩,
      some 1, some .left, some .top, some true⟩, none⟩

/-- Scenario A child D: x=10px left, y=10px top, 50 × 50 px, z=2. -/
def sceneD : LayoutElement :=
  ⟨"D", .rect, "Child",
    ⟨⟨10, .px⟩, ⟨10, .px⟩, ⟨50, .px⟩, ⟨50, .px⟩,
      some 2, some .left, some .top, none⟩, none⟩

/-- Tie-break scenario viewport. -/
def tieViewport : Viewport := ⟨"wide", 1000, 1000, "icon"⟩

/-- Tie-break scenario: a 500 × 500 container at the origin with no stored
z (treated as z = 0). -/
def tieBig : LayoutElement :=
  ⟨"big", .rect, "Big",
    ⟨⟨0, .px⟩, ⟨0, .px⟩, ⟨500, .px⟩, ⟨500, .px⟩,
      none, some .left, some .top, none⟩, none⟩

/-- Tie-break scenario: a 300 × 300 container at (400, 400) with z = 0,
overlapping the 500 × 500 one on 400..500 × 400..500 while neither
container's center lies inside the other. -/
def tieSmall : LayoutElement :=
  ⟨"small", .rect, "Small",
    ⟨⟨400, .px⟩, ⟨400, .px⟩, ⟨300, .px⟩, ⟨300, .px⟩,
      some 0, some .left, some .top, none⟩, none⟩

/-- Tie-break scenario: a 20 × 20 child whose center (420, 420) lies
inside both containers. -/
def tieChild : LayoutElement :=
  ⟨"kid", .rect, "Kid",
    ⟨⟨410, .px⟩, ⟨410, .px⟩, ⟨20, .px⟩, ⟨20, .px⟩,
      some 0, some .left, some .top, none⟩, none⟩

/-- A standalone 10 × 10 element for closed pipeline instances. -/
def soloEl : LayoutElement :=
  ⟨"solo", .rect, "Solo",
    ⟨⟨0, .px⟩, ⟨0, .px⟩, ⟨10, .px⟩, ⟨10, .px⟩,
      some 0, some .left, some .top, none⟩, none⟩

/-- Viewport for the standalone element. -/
def soloViewport : Viewport := ⟨"v", 100, 100, "i"⟩

end LayoutFlow

namespace LayoutFlow

/-- The code's reference-frame selection agrees with `specRefRect`. -/
theorem refRectFor_eq_specRefRect (u : UnitType) (vp : Viewport) (pr : Rect) :
    refRectFor u vp pr = specRefRect u vp pr := by
  cases u <;> simp [refRectFor, specRefRect]

/-- C2: `convertOffsetToAbsolute` first resolves the pixel length `L` and
then applies the anchor formula — `R.origin + L` for a start anchor,
`R.origin + R.size − L − S` for an end anchor, and
`R.origin + R.size/2 + L − S/2` for a center anchor — against the
reference rectangle `R` selected by the unit (viewport at the origin for
`vw`/`vh`, else the parent rectangle). -/
theorem C2_forward_anchor_formula (val : LayoutValue) (S : ℚ) (vp : Viewport)
    (pr : Rect) :
    convertOffsetToAbsolute val .left .x S vp pr =
        (specRefRect val.unit vp pr).x + resolveLength val vp pr ∧
      convertOffsetToAbsolute val .right .x S vp pr =
        (specRefRect val.unit vp pr).x + (specRefRect val.unit vp pr).width -
          resolveLength val vp pr - S ∧
      convertOffsetToAbsolute val .center .x S vp pr =
        (specRefRect val.unit vp pr).x + (specRefRect val.unit vp pr).width / 2 +
          resolveLength val vp pr - S / 2 ∧
      convertOffsetToAbsolute val .top .y S vp pr =
        (specRefRect val.unit vp pr).y + resolveLength val vp pr ∧
      convertOffsetToAbsolute val .bottom .y S vp pr =
        (specRefRect val.unit vp pr).y + (specRefRect val.unit vp pr).height -
          resolveLength val vp pr - S ∧
      convertOffsetToAbsolute val .center .y S vp pr =
        (specRefRect val.unit vp pr).y + (specRefRect val.unit vp pr).height / 2 +
          resolveLength val vp pr - S / 2 := by
  refine ⟨?_, ?_, ?_, ?_, ?_, ?_⟩ <;>
    simp only [convertOffsetToAbsolute, refRectFor_eq_specRefRect, anchorForward]

/-- C6: when the reference dimension relevant to a percent-based unit is 0,
every conversion involving that unit yields 0 rather than an arithmetic
error: `resolveLength` (magnitude to pixels), `fromPixels` and
`convertAbsoluteToOffset` (pixels back to magnitude). -/
theorem C6_zero_reference_dimension (v p absPos S : ℚ) (anchor : Anchor)
    (axis : Axis) (vp : Viewport) (pr : Rect) :
    (pr.width = 0 →
        resolveLength ⟨v, .percentParentW⟩ vp pr = 0 ∧
        fromPixels p .percentParentW vp pr = 0 ∧
        convertAbsoluteToOffset absPos anchor axis S .percentParentW vp pr = 0) ∧
      (pr.height = 0 →
        resolveLength ⟨v, .percentParentH⟩ vp pr = 0 ∧
        fromPixels p .percentParentH vp pr = 0 ∧
        convertAbsoluteToOffset absPos anchor axis S .percentParentH vp pr = 0) ∧
      (vp.width = 0 →
        resolveLength ⟨v, .vw⟩ vp pr = 0 ∧
        fromPixels p .vw vp pr = 0 ∧
        convertAbsoluteToOffset absPos anchor axis S .vw vp pr = 0) ∧
      (vp.height = 0 →
        resolveLength ⟨v, .vh⟩ vp pr = 0 ∧
        fromPixels p .vh vp pr = 0 ∧
        convertAbsoluteToOffset absPos anchor axis S .vh vp pr = 0) := by
  refine ⟨fun h => ⟨?_, ?_, ?_⟩, fun h => ⟨?_, ?_, ?_⟩, fun h => ⟨?_, ?_, ?_⟩,
    fun h => ⟨?_, ?_, ?_⟩⟩ <;>
    simp [resolveLength, fromPixels, convertAbsoluteToOffset, pixelsToUnit, h]

/-- Closed instance of C6 at concrete zero-size reference frames. -/
theorem C6_zero_reference_dimension_witness :
    ((⟨3, 4, 0, 0⟩ : Rect).width = 0 ∧ (⟨3, 4, 0, 0⟩ : Rect).height = 0 ∧
        (⟨"v", 0, 0, "i"⟩ : Viewport).width = 0 ∧
        (⟨"v", 0, 0, "i"⟩ : Viewport).height = 0) ∧
      (resolveLength ⟨5, .percentParentW⟩ ⟨"v", 0, 0, "i"⟩ ⟨3, 4, 0, 0⟩ = 0 ∧
        fromPixels 7 .percentParentW ⟨"v", 0, 0, "i"⟩ ⟨3, 4, 0, 0⟩ = 0 ∧
        convertAbsoluteToOffset 11 .left .x 13 .percentParentW ⟨"v", 0, 0, "i"⟩
          ⟨3, 4, 0, 0⟩ = 0) ∧
      (resolveLength ⟨5, .percentParentH⟩ ⟨"v", 0, 0, "i"⟩ ⟨3, 4, 0, 0⟩ = 0 ∧
        fromPixels 7 .percentParentH ⟨"v", 0, 0, "i"⟩ ⟨3, 4, 0, 0⟩ = 0 ∧
        convertAbsoluteToOffset 11 .left .x 13 .percentParentH ⟨"v", 0, 0, "i"⟩
          ⟨3, 4, 0, 0⟩ = 0) ∧
      (resolveLength ⟨5, .vw⟩ ⟨"v", 0, 0, "i"⟩ ⟨3, 4, 0, 0⟩ = 0 ∧
        fromPixels 7 .vw ⟨"v", 0, 0, "i"⟩ ⟨3, 4, 0, 0⟩ = 0 ∧
        convertAbsoluteToOffset 11 .left .x 13 .vw ⟨"v", 0, 0, "i"⟩
          ⟨3, 4, 0, 0⟩ = 0) ∧
      (resolveLength ⟨5, .vh⟩ ⟨"v", 0, 0, "i"⟩ ⟨3, 4, 0, 0⟩ = 0 ∧
        fromPixels 7 .vh ⟨"v", 0, 0, "i"⟩ ⟨3, 4, 0, 0⟩ = 0 ∧
        convertAbsoluteToOffset 11 .left .x 13 .vh ⟨"v", 0, 0, "i"⟩
          ⟨3, 4, 0, 0⟩ = 0) :=
  ⟨⟨rfl, rfl, rfl, rfl⟩,
    (C6_zero_reference_dimension 5 7 11 13 .left .x ⟨"v", 0, 0, "i"⟩ ⟨3, 4, 0, 0⟩).1 rfl,
    (C6_zero_reference_dimension 5 7 11 13 .left .x ⟨"v", 0, 0, "i"⟩ ⟨3, 4, 0, 0⟩).2.1 rfl,
    (C6_zero_reference_dimension 5 7 11 13 .left .x ⟨"v", 0, 0, "i"⟩ ⟨3, 4, 0, 0⟩).2.2.1 rfl,
    (C6_zero_reference_dimension 5 7 11 13 .left .x ⟨"v", 0, 0, "i"⟩ ⟨3, 4, 0, 0⟩).2.2.2 rfl⟩

/-- C1 fails as stated: with a zero-width parent rectangle and the
percent-of-parent-width unit, the offset 5 converts to absolute 3 and back
to 0, not 5 — the universally quantified round trip does not cover
zero-size reference rectangles. -/
theorem C1_roundtrip_counterexample :
    ¬ (convertAbsoluteToOffset
        (convertOffsetToAbsolute ⟨5, .percentParentW⟩ .left .x 10
          ⟨"v", 100, 100, "i"⟩ ⟨3, 4, 0, 20⟩)
        .left .x 10 .percentParentW ⟨"v", 100, 100, "i"⟩ ⟨3, 4, 0, 20⟩ = 5) := by
  norm_num [convertOffsetToAbsolute, convertAbsoluteToOffset, resolveLength,
    refRectFor, anchorForward, anchorInverse, pixelsToUnit]

/-- C1 (amended): the round trip is exact in both directions for every
anchor on its axis and every unit, provided the reference dimension the
unit divides by is nonzero (always true for `px`). -/
theorem C1_amended_roundtrip (v absPos S : ℚ) (u : UnitType) (anchor : Anchor)
    (axis : Axis) (vp : Viewport) (pr : Rect) (hax : anchorOnAxis anchor axis)
    (hdim : refDimOk u vp pr) :
    convertAbsoluteToOffset (convertOffsetToAbsolute ⟨v, u⟩ anchor axis S vp pr)
        anchor axis S u vp pr = v ∧
      convertOffsetToAbsolute
        ⟨convertAbsoluteToOffset absPos anchor axis S u vp pr, u⟩
        anchor axis S vp pr = absPos := by
  cases axis <;> rcases hax with h | h | h <;> subst h <;> cases u <;>
    simp only [refDimOk] at hdim <;>
    constructor <;>
    simp only [convertOffsetToAbsolute, convertAbsoluteToOffset, resolveLength,
      refRectFor, anchorForward, anchorInverse, pixelsToUnit] <;>
    (try simp [hdim]) <;> (try field_simp) <;> (try ring)

/-- Closed instance of C1's amended round trip (left anchor, x axis,
percent-of-parent-width, parent width 200). -/
theorem C1_amended_roundtrip_witness :
    (anchorOnAxis .left .x ∧ refDimOk .percentParentW ⟨"v", 100, 100, "i"⟩
        ⟨0, 0, 200, 100⟩) ∧
      convertAbsoluteToOffset
          (convertOffsetToAbsolute ⟨5, .percentParentW⟩ .left .x 10
            ⟨"v", 100, 100, "i"⟩ ⟨0, 0, 200, 100⟩)
          .left .x 10 .percentParentW ⟨"v", 100, 100, "i"⟩ ⟨0, 0, 200, 100⟩ = 5 ∧
      convertOffsetToAbsolute
          ⟨convertAbsoluteToOffset 42 .left .x 10 .percentParentW
            ⟨"v", 100, 100, "i"⟩ ⟨0, 0, 200, 100⟩, .percentParentW⟩
          .left .x 10 ⟨"v", 100, 100, "i"⟩ ⟨0, 0, 200, 100⟩ = 42 :=
  ⟨⟨Or.inl rfl, by norm_num [refDimOk]⟩,
    (C1_amended_roundtrip 5 42 10 .percentParentW .left .x ⟨"v", 100, 100, "i"⟩
      ⟨0, 0, 200, 100⟩ (Or.inl rfl) (by norm_num [refDimOk])).1,
    (C1_amended_roundtrip 5 42 10 .percentParentW .left .x ⟨"v", 100, 100, "i"⟩
      ⟨0, 0, 200, 100⟩ (Or.inl rfl) (by norm_num [refDimOk])).2⟩

/-- `List.find?` only depends on the predicate's values on the list. -/
theorem findCongr {α : Type} (p q : α → Bool) (l : List α)
    (h : ∀ x ∈ l, p x = q x) : l.find? p = l.find? q := by
  induction l with
  | nil => rfl
  | cons a t ih =>
    have ha : p a = q a := h a (by simp)
    by_cases hp : p a = true
    · rw [List.find?_cons_of_pos _ hp, List.find?_cons_of_pos _ (ha ▸ hp)]
    · rw [List.find?_cons_of_neg _ hp, List.find?_cons_of_neg _ (ha ▸ hp)]
      exact ih fun x hx => h x (by simp [hx])

/-- The two standard facts about a successful `find?`. -/
theorem find?_eq_some_facts {α : Type} (p : α → Bool) (l : List α) (a : α)
    (h : l.find? p = some a) : a ∈ l ∧ p a = true :=
  ⟨List.mem_of_find?_eq_some h, List.find?_some h⟩

/-- Membership through `stableInsert`. -/
theorem stableInsert_mem {α : Type} (le : α → α → Bool) (a x : α) (l : List α) :
    x ∈ stableInsert le a l ↔ x = a ∨ x ∈ l := by
  induction l with
  | nil => simp [stableInsert]
  | cons b t ih =>
    by_cases h : le a b <;> simp [stableInsert, h, ih] <;> tauto

/-- Membership through `stableSort`. -/
theorem stableSort_mem {α : Type} (le : α → α → Bool) (x : α) (l : List α) :
    x ∈ stableSort le l ↔ x ∈ l := by
  induction l with
  | nil => simp [stableSort]
  | cons a t ih => simp [stableSort, stableInsert_mem, ih]

/-- `stableInsert` grows the length by one. -/
theorem length_stableInsert {α : Type} (le : α → α → Bool) (a : α) (l : List α) :
    (stableInsert le a l).length = l.length + 1 := by
  induction l with
  | nil => rfl
  | cons b t ih => by_cases h : le a b <;> simp [stableInsert, h, ih]

/-- `stableSort` preserves length. -/
theorem length_stableSort {α : Type} (le : α → α → Bool) (l : List α) :
    (stableSort le l).length = l.length := by
  induction l with
  | nil => rfl
  | cons a t ih => simp [stableSort, length_stableInsert, ih]

/-- Head of a stable insertion. -/
theorem head?_stableInsert {α : Type} (le : α → α → Bool) (a : α) (l : List α) :
    (stableInsert le a l).head? =
      some (l.head?.elim a fun b => if le a b then a else b) := by
  cases l with
  | nil => rfl
  | cons b t => by_cases h : le a b <;> simp [stableInsert, h]

/-- For a total, transitive `le`, the head of the stable sort is the first
element of the input that relates (via `le`) to every element — exactly
the "stable first minimum". -/
theorem head?_stableSort {α : Type} (le : α → α → Bool)
    (htot : ∀ a b, (le a b || le b a) = true)
    (htrans : ∀ a b c, le a b = true → le b c = true → le a c = true)
    (l : List α) :
    (stableSort le l).head? = l.find? fun c => l.all fun d => le c d := by
  have hrefl : ∀ x, le x x = true := by
    intro x
    have h := htot x x
    simpa using h
  induction l with
  | nil => rfl
  | cons a t ih =>
    have hstep : stableSort le (a :: t) = stableInsert le a (stableSort le t) := rfl
    rw [hstep, head?_stableInsert]
    cases hsd : (stableSort le t).head? with
    | none =>
      have hnil : stableSort le t = [] := by
        cases hst : stableSort le t with
        | nil => rfl
        | cons x xs => rw [hst] at hsd; cases hsd
      have ht : t = [] := by
        have hlen := length_stableSort le t
        rw [hnil] at hlen
        exact List.length_eq_zero.mp hlen.symm
      subst ht
      simp [List.find?, hrefl a]
    | some b =>
      have hfind : (t.find? fun c => t.all fun d => le c d) = some b := by
        rw [← ih, hsd]
      have hbmem : b ∈ t := List.mem_of_find?_eq_some hfind
      have hbmin : (t.all fun d => le b d) = true := by
        simpa using List.find?_some hfind
      have hbmin2 : ∀ d ∈ t, le b d = true := by
        simpa [List.all_eq_true] using hbmin
      simp only [Option.elim]
      by_cases hab : le a b = true
      · rw [if_pos hab]
        have hpa : (fun c => (a :: t).all fun d => le c d) a = true := by
          simp only [List.all_eq_true]
          intro d hd
          rcases List.mem_cons.mp hd with hd | hd
          · rw [hd]; exact hrefl a
          · exact htrans a b d hab (hbmin2 d hd)
        rw [@List.find?_cons_of_pos _ (fun c => (a :: t).all fun d => le c d) a t hpa]
      · rw [if_neg hab]
        have hba : le b a = true := by
          have h2 := htot a b
          rcases Bool.or_eq_true_iff.mp h2 with h3 | h3
          · exact absurd h3 hab
          · exact h3
        have hpa : ¬ (fun c => (a :: t).all fun d => le c d) a = true := by
          intro hall
          simp only [List.all_eq_true] at hall
          exact hab (hall b (by simp [hbmem]))
        rw [@List.find?_cons_of_neg _ (fun c => (a :: t).all fun d => le c d) a t hpa]
        rw [findCongr _ (fun c => t.all fun d => le c d) t ?_, hfind]
        intro c hc
        cases hcall : (t.all fun d => le c d) with
        | true =>
          have hc2 : ∀ d ∈ t, le c d = true := by
            simpa [List.all_eq_true] using hcall
          have hca : le c a = true := htrans c b a (hc2 b hbmem) hba
          simp [List.all_cons, hca, hcall]
        | false =>
          simp only [List.all_cons, hcall, Bool.and_false]

/-- The comparator is antisymmetric around 0 (swapping arguments negates). -/
theorem compareCand_neg (a b : LayoutElement) :
    compareCand b a = - compareCand a b := by
  unfold compareCand
  dsimp only
  rcases eq_or_ne ((a.layout.zIndex.getD 0 : Int) : ℚ)
      ((b.layout.zIndex.getD 0 : Int) : ℚ) with h | h
  · rw [if_neg (by simp [sub_eq_zero, h]), if_neg (by simp [sub_eq_zero, h.symm])]
    ring
  · rw [if_pos (sub_ne_zero.mpr h), if_pos (sub_ne_zero.mpr h.symm)]
    ring

/-- The sort's keep-before relation is exactly the spec's priority order:
higher z first, then smaller estimated area. -/
theorem compareCand_le_zero_iff (a b : LayoutElement) :
    compareCand a b ≤ 0 ↔ specBeats a b := by
  unfold compareCand specBeats zOf areaOf
  dsimp only
  rcases eq_or_ne (a.layout.zIndex.getD 0) (b.layout.zIndex.getD 0) with hz | hz
  · rw [if_neg (by simp [sub_eq_zero, hz])]
    simp [hz, sub_nonpos]
  · have hq : ((b.layout.zIndex.getD 0 : Int) : ℚ) -
        ((a.layout.zIndex.getD 0 : Int) : ℚ) ≠ 0 := by
      rw [sub_ne_zero]
      have h3 : b.layout.zIndex.getD 0 ≠ a.layout.zIndex.getD 0 := hz.symm
      exact_mod_cast h3
    rw [if_pos hq, sub_nonpos]
    constructor
    · intro hle
      left
      have h2 : b.layout.zIndex.getD 0 ≤ a.layout.zIndex.getD 0 := by exact_mod_cast hle
      exact lt_of_le_of_ne h2 hz.symm
    · rintro (hlt | ⟨heq, _⟩)
      · exact_mod_cast le_of_lt hlt
      · exact absurd heq hz

/-- `candLE` in propositional form. -/
theorem candLE_eq_true_iff (a b : LayoutElement) :
    candLE a b = true ↔ specBeats a b := by
  unfold candLE
  rw [decide_eq_true_eq]
  exact compareCand_le_zero_iff a b

/-- Totality of the comparator relation. -/
theorem candLE_total (a b : LayoutElement) :
    (candLE a b || candLE b a) = true := by
  unfold candLE
  rcases le_total (compareCand a b) 0 with h | h
  · simp [h]
  · have h2 : compareCand b a ≤ 0 := by
      rw [compareCand_neg]
      linarith
    simp [h2]

/-- Transitivity of the spec's priority order. -/
theorem specBeats_trans (a b c : LayoutElement) (h1 : specBeats a b)
    (h2 : specBeats b c) : specBeats a c := by
  unfold specBeats at *
  rcases h1 with h1 | ⟨e1, r1⟩ <;> rcases h2 with h2 | ⟨e2, r2⟩
  · exact Or.inl (lt_trans h2 h1)
  · exact Or.inl (e2 ▸ h1)
  · exact Or.inl (e1 ▸ h2)
  · exact Or.inr ⟨e1.trans e2, r1.trans r2⟩

/-- Transitivity of the comparator relation. -/
theorem candLE_trans (a b c : LayoutElement) (h1 : candLE a b = true)
    (h2 : candLE b c = true) : candLE a c = true := by
  rw [candLE_eq_true_iff] at h1 h2 ⊢
  exact specBeats_trans a b c h1 h2

/-- `candLE` is the decision procedure of the spec's priority order. -/
theorem candLE_eq_decide (a b : LayoutElement) :
    candLE a b = decide (specBeats a b) := by
  unfold candLE
  exact decide_eq_decide.mpr (compareCand_le_zero_iff a b)

/-- Pass-1 elements carry a root (null) parent. -/
theorem estimateElement_parentId (vp : Viewport) (el : LayoutElement) :
    (rtOf (estimateElement vp el)).parentId = none := rfl

/-- Every member of the Pass-1 list carries a root parent. -/
theorem mem_estimated_parentId (es : List LayoutElement) (vp : Viewport)
    (child : LayoutElement) (hc : child ∈ estimatedElements es vp) :
    (rtOf child).parentId = none := by
  rcases List.mem_map.mp hc with ⟨el, _, rfl⟩
  exact estimateElement_parentId vp el

/-- What `assignParent` writes into `parentId`, by cases on the sorted
candidate list. -/
theorem assignParent_parentId (ests : List LayoutElement)
    (child : LayoutElement) :
    (rtOf (assignParent ests child)).parentId =
      ((stableSort candLE (ests.filter fun p => isCandidateParent child p)).head?).elim
        (rtOf child).parentId (fun p => some p.id) := by
  unfold assignParent
  cases hh : (stableSort candLE (ests.filter fun p => isCandidateParent child p)).head? with
  | none => simp [hh]
  | some p => simp [hh, rtOf, setRuntime]

/-- The Boolean candidate filter in propositional form. -/
theorem isCandidateParent_iff (child p : LayoutElement) :
    isCandidateParent child p = true ↔
      (p.id ≠ child.id ∧ p.layout.isContainer ≠ some false ∧
        (rtOf p).x ≤ (rtOf child).x + (rtOf child).width / 2 ∧
        (rtOf child).x + (rtOf child).width / 2 ≤ (rtOf p).x + (rtOf p).width ∧
        (rtOf p).y ≤ (rtOf child).y + (rtOf child).height / 2 ∧
        (rtOf child).y + (rtOf child).height / 2 ≤ (rtOf p).y + (rtOf p).height) := by
  unfold isCandidateParent
  split_ifs with h1 h2
  · simp [h1]
  · simp [h2]
  · simp [h1, h2, and_assoc]

/-- Members of a head position belong to the list. -/
theorem mem_of_head? {α : Type} {l : List α} {a : α} (h : l.head? = some a) :
    a ∈ l := by
  cases l with
  | nil => cases h
  | cons b t =>
    simp only [List.head?_cons, Option.some.injEq] at h
    rw [← h]
    exact List.mem_cons_self b t

/-- C3: in the containment pass, the candidate parents of `E` are exactly
the other elements that are not explicitly `isContainer: false` and whose
estimated rectangle contains `E`'s estimated center under closed bounds;
an empty candidate list leaves `E` root-parented, and an assigned parent
id always belongs to a candidate, hence never to an element with
`isContainer: false`. -/
theorem C3_candidate_parents (es : List LayoutElement) (vp : Viewport)
    (child : LayoutElement) (hc : child ∈ estimatedElements es vp) :
    (∀ p, p ∈ (estimatedElements es vp).filter (fun q => isCandidateParent child q) ↔
        (p ∈ estimatedElements es vp ∧ p.id ≠ child.id ∧
          p.layout.isContainer ≠ some false ∧
          (rtOf p).x ≤ (rtOf child).x + (rtOf child).width / 2 ∧
          (rtOf child).x + (rtOf child).width / 2 ≤ (rtOf p).x + (rtOf p).width ∧
          (rtOf p).y ≤ (rtOf child).y + (rtOf child).height / 2 ∧
          (rtOf child).y + (rtOf child).height / 2 ≤ (rtOf p).y + (rtOf p).height)) ∧
      ((estimatedElements es vp).filter (fun q => isCandidateParent child q) = [] →
        (rtOf (assignParent (estimatedElements es vp) child)).parentId = none) ∧
      (∀ pid, (rtOf (assignParent (estimatedElements es vp) child)).parentId = some pid →
        ∃ p, p ∈ estimatedElements es vp ∧ p.id = pid ∧
          p.layout.isContainer ≠ some false) := by
  refine ⟨fun p => ?_, fun hemp => ?_, fun pid hpid => ?_⟩
  · rw [List.mem_filter, isCandidateParent_iff]
  · rw [assignParent_parentId, hemp]
    simpa [stableSort] using mem_estimated_parentId es vp child hc
  · rw [assignParent_parentId] at hpid
    cases hh : (stableSort candLE ((estimatedElements es vp).filter
        fun q => isCandidateParent child q)).head? with
    | none =>
      rw [hh] at hpid
      simp only [Option.elim] at hpid
      rw [mem_estimated_parentId es vp child hc] at hpid
      cases hpid
    | some q =>
      rw [hh] at hpid
      simp only [Option.elim, Option.some.injEq] at hpid
      have hqmem : q ∈ (estimatedElements es vp).filter
          fun p => isCandidateParent child p :=
        (stableSort_mem candLE q _).mp (mem_of_head? hh)
      rw [List.mem_filter] at hqmem
      rcases hqmem with ⟨hq1, hq2⟩
      rw [isCandidateParent_iff] at hq2
      exact ⟨q, hq1, hpid ▸ rfl, hq2.2.1⟩

/-- Closed instance of C3: in the tie-break scene the 500 × 500 container
has no candidate parents (nothing contains its center), so it resolves to
root. -/
theorem C3_candidate_parents_witness :
    (estimateElement tieViewport tieBig ∈
        estimatedElements [tieBig, tieSmall, tieChild] tieViewport) ∧
      ((estimatedElements [tieBig, tieSmall, tieChild] tieViewport).filter
          (fun q => isCandidateParent (estimateElement tieViewport tieBig) q) = []) ∧
      (rtOf (assignParent (estimatedElements [tieBig, tieSmall, tieChild] tieViewport)
          (estimateElement tieViewport tieBig))).parentId = none := by
  have hmem : estimateElement tieViewport tieBig ∈
      estimatedElements [tieBig, tieSmall, tieChild] tieViewport := by
    simp [estimatedElements]
  have hemp : (estimatedElements [tieBig, tieSmall, tieChild] tieViewport).filter
      (fun q => isCandidateParent (estimateElement tieViewport tieBig) q) = [] := by
    norm_num [estimatedElements, estimateElement, isCandidateParent, rtOf,
      setRuntime, toPixels, resolveLength, convertOffsetToAbsolute, anchorForward,
      refRectFor, tieBig, tieSmall, tieChild, tieViewport, List.filter]
  exact ⟨hmem, hemp,
    (C3_candidate_parents [tieBig, tieSmall, tieChild] tieViewport
      (estimateElement tieViewport tieBig) hmem).2.1 hemp⟩

set_option maxHeartbeats 2000000 in
/-- C4: the candidate order is total and deterministic — the assigned
parent is the first candidate (in input order) that beats every candidate
under "z-order descending, then estimated area ascending" (missing z read
as 0); and in the equal-z tie-break scene the 300 × 300 container wins
over the 500 × 500 one for the child whose center lies in both. -/
theorem C4_candidate_priority_order :
    (∀ es vp child, child ∈ estimatedElements es vp →
      (rtOf (assignParent (estimatedElements es vp) child)).parentId =
        ((((estimatedElements es vp).filter fun p => isCandidateParent child p).find?
          fun c => (((estimatedElements es vp).filter
            fun p => isCandidateParent child p).all
              fun d => decide (specBeats c d))).map fun p => p.id)) ∧
      (calculateRuntimePositions [tieBig, tieSmall, tieChild] tieViewport).map
          (fun e => e.runtime.map fun r => r.parentId) =
        [some none, some none, some (some "small")] := by
  constructor
  · intro es vp child hc
    have hpred : (fun c => (((estimatedElements es vp).filter
        fun p => isCandidateParent child p).all fun d => candLE c d)) =
        (fun c => (((estimatedElements es vp).filter
          fun p => isCandidateParent child p).all
            fun d => decide (specBeats c d))) := by
      funext c
      congr 1
      funext d
      exact candLE_eq_decide c d
    have hsort := head?_stableSort candLE candLE_total candLE_trans
      ((estimatedElements es vp).filter fun p => isCandidateParent child p)
    rw [hpred] at hsort
    rw [assignParent_parentId, hsort]
    cases hf : (((estimatedElements es vp).filter
        fun p => isCandidateParent child p).find? fun c =>
          (((estimatedElements es vp).filter fun p => isCandidateParent child p).all
            fun d => decide (specBeats c d))) with
    | none => simpa using mem_estimated_parentId es vp child hc
    | some q => simp
  · norm_num [calculateRuntimePositions, withParents, estimatedElements,
      estimateElement, assignParent, isCandidateParent, stableSort, stableInsert,
      candLE, compareCand, runCalc, calcElement, finishCalc, parentRectFrom,
      mapGet, mapSet, rtOf, setRuntime, toPixels, resolveLength, convertOffsetToAbsolute,
      anchorForward, refRectFor, tieBig, tieSmall, tieChild, tieViewport,
      List.filter, List.find?, List.foldl]
    simp

/-- Closed instance of C4's selection rule at the tie-break child. -/
theorem C4_candidate_priority_order_witness :
    (estimateElement tieViewport tieChild ∈
        estimatedElements [tieBig, tieSmall, tieChild] tieViewport) ∧
      (rtOf (assignParent (estimatedElements [tieBig, tieSmall, tieChild] tieViewport)
          (estimateElement tieViewport tieChild))).parentId =
        ((((estimatedElements [tieBig, tieSmall, tieChild] tieViewport).filter
          fun p => isCandidateParent (estimateElement tieViewport tieChild) p).find?
            fun c => (((estimatedElements [tieBig, tieSmall, tieChild] tieViewport).filter
              fun p => isCandidateParent (estimateElement tieViewport tieChild) p).all
                fun d => decide (specBeats c d))).map fun p => p.id) :=
  ⟨by simp [estimatedElements],
    C4_candidate_priority_order.1 [tieBig, tieSmall, tieChild] tieViewport
      (estimateElement tieViewport tieChild) (by simp [estimatedElements])⟩

/-- `mapGet` after `mapSet` at the same key. -/
theorem mapGet_mapSet_self (m : FinalMap) (k : String) (v : LayoutElement) :
    mapGet (mapSet m k v) k = some v := by
  simp [mapGet, mapSet]

/-- `mapGet` after `mapSet` at a different key. -/
theorem mapGet_mapSet_ne (m : FinalMap) (k k1 : String) (v : LayoutElement)
    (h : k ≠ k1) : mapGet (mapSet m k v) k1 = mapGet m k1 := by
  simp [mapGet, mapSet, h]

/-- One-step unfolding of `calcElement` at positive fuel. -/
theorem calcElement_succ (wps : List LayoutElement) (vp : Viewport) (fuel : Nat)
    (id : String) (stack : List String) (m : FinalMap) :
    calcElement wps vp (fuel + 1) id stack m =
      match mapGet m id with
      | some r => some (some r, m)
      | none =>
        if id ∈ stack then
          some (wps.find? (fun e => decide (e.id = id)), m)
        else
          match wps.find? (fun e => decide (e.id = id)) with
          | none => some (none, m)
          | some el =>
            match (rtOf el).parentId with
            | some pid =>
              if pid = "" then
                some (finishCalc vp id el ⟨0, 0, vp.width, vp.height⟩ m)
              else
                match calcElement wps vp fuel pid (stack ++ [id]) m with
                | none => none
                | some (parentEl, m1) =>
                  some (finishCalc vp id el (parentRectFrom vp parentEl) m1)
            | none => some (finishCalc vp id el ⟨0, 0, vp.width, vp.height⟩ m) :=
  rfl

/-- What `finishCalc` returns: the element with a freshly computed runtime
rectangle that keeps the Pass-2 parent assignment, memoized under the key. -/
theorem finishCalc_spec (vp : Viewport) (id : String) (el : LayoutElement)
    (rect : Rect) (m : FinalMap) :
    ∃ r : RuntimeRect, r.parentId = (rtOf el).parentId ∧
      finishCalc vp id el rect m =
        (some (setRuntime el r), mapSet m id (setRuntime el r)) :=
  ⟨⟨convertOffsetToAbsolute el.layout.x (el.layout.anchorX.getD .left) .x
      (toPixels el.layout.width vp rect) vp rect,
    convertOffsetToAbsolute el.layout.y (el.layout.anchorY.getD .top) .y
      (toPixels el.layout.height vp rect) vp rect,
    toPixels el.layout.width vp rect, toPixels el.layout.height vp rect,
    (rtOf el).parentId⟩, rfl, rfl⟩

/-- Filtering with a stronger predicate yields at most as many elements. -/
theorem filter_length_le {α : Type} (p q : α → Bool) (l : List α)
    (h : ∀ x ∈ l, q x = true → p x = true) :
    (l.filter q).length ≤ (l.filter p).length := by
  induction l with
  | nil => simp
  | cons a t ih =>
    have ih2 := ih fun x hx hq => h x (List.mem_cons_of_mem a hx) hq
    by_cases hq : q a = true
    · rw [List.filter_cons_of_pos hq,
        List.filter_cons_of_pos (h a (List.mem_cons_self a t) hq)]
      simpa using ih2
    · rw [List.filter_cons_of_neg (by simpa using hq)]
      by_cases hp : p a = true
      · rw [List.filter_cons_of_pos hp]
        exact Nat.le_succ_of_le ih2
      · rw [List.filter_cons_of_neg (by simpa using hp)]
        exact ih2

/-- Excluding one more present id strictly shrinks the pending filter. -/
theorem filter_notmem_lt (stack : List String) (id : String) (hnot : id ∉ stack) :
    ∀ l : List String, id ∈ l →
      (l.filter fun i => decide (i ∉ stack ++ [id])).length <
        (l.filter fun i => decide (i ∉ stack)).length := by
  have hmono : ∀ x : String,
      (decide (x ∉ stack ++ [id])) = true → (decide (x ∉ stack)) = true := by
    intro x hx
    simp only [decide_eq_true_eq] at hx ⊢
    intro hc
    exact hx (List.mem_append_left _ hc)
  intro l
  induction l with
  | nil => intro h; cases h
  | cons a t ih =>
    intro hmem
    rcases List.mem_cons.mp hmem with heq | hmem2
    · have hqa : ¬ (decide (a ∉ stack ++ [id])) = true := by
        simp [← heq]
      have hpa : (decide (a ∉ stack)) = true := by
        simpa [← heq] using hnot
      rw [@List.filter_cons_of_neg String (fun i => decide (i ∉ stack ++ [id])) a t hqa,
        @List.filter_cons_of_pos String (fun i => decide (i ∉ stack)) a t hpa]
      exact Nat.lt_succ_of_le (filter_length_le _ _ t fun x _ hx => hmono x hx)
    · by_cases hqa : (decide (a ∉ stack ++ [id])) = true
      · rw [@List.filter_cons_of_pos String (fun i => decide (i ∉ stack ++ [id])) a t hqa,
          @List.filter_cons_of_pos String (fun i => decide (i ∉ stack)) a t (hmono a hqa)]
        simpa using Nat.succ_lt_succ (ih hmem2)
      · rw [@List.filter_cons_of_neg String (fun i => decide (i ∉ stack ++ [id])) a t hqa]
        by_cases hpa : (decide (a ∉ stack)) = true
        · rw [@List.filter_cons_of_pos String (fun i => decide (i ∉ stack)) a t hpa]
          exact Nat.lt_succ_of_lt (ih hmem2)
        · rw [@List.filter_cons_of_neg String (fun i => decide (i ∉ stack)) a t hpa]
          exact ih hmem2

/-- Pushing a fresh present id on the stack strictly decreases the
termination measure. -/
theorem pendingCount_lt (wps : List LayoutElement) (stack : List String)
    (id : String) (hmem : id ∈ wps.map fun e => e.id) (hnot : id ∉ stack) :
    pendingCount wps (stack ++ [id]) < pendingCount wps stack :=
  filter_notmem_lt stack id hnot _ hmem

/-- With an empty stack the measure is the number of elements. -/
theorem pendingCount_nil (wps : List LayoutElement) :
    pendingCount wps [] = wps.length := by
  unfold pendingCount
  simp

/-- `calcElement` returns a value whenever the fuel exceeds the number of
ids not yet on the stack. -/
theorem calcElement_total (wps : List LayoutElement) (vp : Viewport) :
    ∀ (fuel : Nat) (id : String) (stack : List String) (m : FinalMap),
      pendingCount wps stack < fuel →
        calcElement wps vp fuel id stack m ≠ none := by
  intro fuel
  induction fuel with
  | zero =>
    intro id stack m h
    exact absurd h (Nat.not_lt_zero _)
  | succ fuel ih =>
    intro id stack m hlt
    rw [calcElement_succ]
    cases hm : mapGet m id with
    | some r => simp
    | none =>
      by_cases hs : id ∈ stack
      · simp [hs]
      · simp only [hs, if_false]
        cases hfind : wps.find? fun e => decide (e.id = id) with
        | none => simp
        | some el =>
          cases hp : (rtOf el).parentId with
          | none => simp [hp]
          | some pid =>
            simp only [hp]
            by_cases hpe : pid = ""
            · simp [hpe]
            · rw [if_neg hpe]
              have hidmem : id ∈ wps.map fun e => e.id := by
                obtain ⟨h1, h2⟩ := find?_eq_some_facts _ _ _ hfind
                have h3 : el.id = id := by simpa using h2
                exact h3 ▸ List.mem_map_of_mem _ h1
              have hrec := ih pid (stack ++ [id]) m (by
                have hd := pendingCount_lt wps stack id hidmem hs
                omega)
              cases hrec2 : calcElement wps vp fuel pid (stack ++ [id]) m with
              | none => exact absurd hrec2 hrec
              | some pr =>
                obtain ⟨pEl, m1⟩ := pr
                simp [hrec2]

/-- C5: `calculateElement` terminates on every input.  First conjunct: the
recursion returns whenever the fuel exceeds the ids not yet on the active
stack (so resolution depth is bounded by the element count and
`length + 1` fuel — used by the pipeline driver — always suffices, even
when Pass-2 parent assignments form a cycle).  Second conjunct: when the
requested id is already on the active stack, the recursion stops
immediately and substitutes the Pass-1/Pass-2 element from `withParents`
(whose rectangle is the Pass-1 estimate), leaving the memo table
untouched for that resolution. -/
theorem C5_cycle_safe_termination :
    (∀ (wps : List LayoutElement) (vp : Viewport) (fuel : Nat) (id : String)
        (stack : List String) (m : FinalMap),
      pendingCount wps stack < fuel →
        calcElement wps vp fuel id stack m ≠ none) ∧
      (∀ (wps : List LayoutElement) (vp : Viewport) (fuel : Nat) (id : String)
          (stack : List String) (m : FinalMap),
        id ∈ stack → mapGet m id = none →
          calcElement wps vp (fuel + 1) id stack m =
            some (wps.find? fun e => decide (e.id = id), m)) := by
  constructor
  · intro wps vp fuel id stack m h
    exact calcElement_total wps vp fuel id stack m h
  · intro wps vp fuel id stack m hs hm
    rw [calcElement_succ, hm]
    simp [hs]

/-- Closed instance of C5: one-element cycle (`"a"` parented to itself on
the stack) resolves at once; fuel 1 suffices for an empty stack over an
empty element list. -/
theorem C5_cycle_safe_termination_witness :
    (pendingCount [] [] < 1 ∧
      ("a" ∈ ["a"]) ∧ mapGet [] "a" = none) ∧
      calcElement [] ⟨"v", 10, 10, "i"⟩ 1 "a" [] [] ≠ none ∧
      calcElement [] ⟨"v", 10, 10, "i"⟩ 1 "a" ["a"] [] = some (none, []) := by
  refine ⟨⟨by norm_num [pendingCount], by simp, rfl⟩, ?_, ?_⟩
  · exact C5_cycle_safe_termination.1 [] ⟨"v", 10, 10, "i"⟩ 1 "a" [] []
      (by norm_num [pendingCount])
  · have h := C5_cycle_safe_termination.2 [] ⟨"v", 10, 10, "i"⟩ 0 "a" ["a"] []
      (by simp) rfl
    simpa using h

/-- `calcElement` at zero fuel. -/
theorem calcElement_zero (wps : List LayoutElement) (vp : Viewport) (id : String)
    (stack : List String) (m : FinalMap) :
    calcElement wps vp 0 id stack m = none :=
  rfl

/-- The memo table evolves monotonically through `calcElement`: keys on the
active stack are untouched, existing bindings survive unchanged, and the
entry-shape invariant is preserved. -/
theorem calcElement_map_facts (wps : List LayoutElement) (vp : Viewport) :
    ∀ (fuel : Nat) (id : String) (stack : List String) (m : FinalMap)
      (res : Option LayoutElement) (m1 : FinalMap),
      calcElement wps vp fuel id stack m = some (res, m1) →
        (∀ k, k ∈ stack → mapGet m1 k = mapGet m k) ∧
        (∀ k v, mapGet m k = some v → mapGet m1 k = some v) ∧
        (InvMap wps m → InvMap wps m1) := by
  intro fuel
  induction fuel with
  | zero =>
    intro id stack m res m1 h
    rw [calcElement_zero] at h
    cases h
  | succ fuel ih =>
    intro id stack m res m1 h
    rw [calcElement_succ] at h
    cases hm : mapGet m id with
    | some r =>
      simp only [hm] at h
      obtain ⟨hres, hm1⟩ := Prod.mk.injEq .. ▸ Option.some.injEq .. ▸ h
      subst hm1
      exact ⟨fun k _ => rfl, fun k v hv => hv, fun hi => hi⟩
    | none =>
      simp only [hm] at h
      by_cases hs : id ∈ stack
      · rw [if_pos hs] at h
        obtain ⟨hres, hm1⟩ := Prod.mk.injEq .. ▸ Option.some.injEq .. ▸ h
        subst hm1
        exact ⟨fun k _ => rfl, fun k v hv => hv, fun hi => hi⟩
      · rw [if_neg hs] at h
        cases hfind : wps.find? fun e => decide (e.id = id) with
        | none =>
          simp only [hfind] at h
          obtain ⟨hres, hm1⟩ := Prod.mk.injEq .. ▸ Option.some.injEq .. ▸ h
          subst hm1
          exact ⟨fun k _ => rfl, fun k v hv => hv, fun hi => hi⟩
        | some el =>
          simp only [hfind] at h
          have hset : ∀ m2 : FinalMap,
              (∀ k, k ∈ stack → mapGet m2 k = mapGet m k) →
              (∀ k v, mapGet m k = some v → mapGet m2 k = some v) →
              (InvMap wps m → InvMap wps m2) →
              ∀ r : RuntimeRect, r.parentId = (rtOf el).parentId →
                (∀ k, k ∈ stack →
                  mapGet (mapSet m2 id (setRuntime el r)) k = mapGet m k) ∧
                (∀ k v, mapGet m k = some v →
                  mapGet (mapSet m2 id (setRuntime el r)) k = some v) ∧
                (InvMap wps m →
                  InvMap wps (mapSet m2 id (setRuntime el r))) := by
            intro m2 hstk hmono hinv r hrp
            refine ⟨fun k hk => ?_, fun k v hv => ?_, fun hi => ?_⟩
            · have hne : id ≠ k := fun hc => hs (hc ▸ hk)
              rw [mapGet_mapSet_ne _ _ _ _ hne]
              exact hstk k hk
            · have hne : id ≠ k := by
                intro hc
                subst hc
                rw [hm] at hv
                cases hv
              rw [mapGet_mapSet_ne _ _ _ _ hne]
              exact hmono k v hv
            · intro k v hv
              by_cases hk : id = k
              · subst hk
                rw [mapGet_mapSet_self] at hv
                obtain rfl := Option.some.injEq .. ▸ hv
                exact ⟨el, r, hfind, rfl, hrp⟩
              · rw [mapGet_mapSet_ne _ _ _ _ hk] at hv
                exact hinv hi k v hv
          cases hp : (rtOf el).parentId with
          | none =>
            simp only [hp] at h
            obtain ⟨r, hrp, hfc⟩ :=
              finishCalc_spec vp id el ⟨0, 0, vp.width, vp.height⟩ m
            rw [hfc] at h
            obtain ⟨hres, hm1⟩ := Prod.mk.injEq .. ▸ Option.some.injEq .. ▸ h
            subst hm1
            exact hset m (fun k _ => rfl) (fun k v hv => hv) (fun hi => hi) r hrp
          | some pid =>
            simp only [hp] at h
            by_cases hpe : pid = ""
            · rw [if_pos hpe] at h
              obtain ⟨r, hrp, hfc⟩ :=
                finishCalc_spec vp id el ⟨0, 0, vp.width, vp.height⟩ m
              rw [hfc] at h
              obtain ⟨hres, hm1⟩ := Prod.mk.injEq .. ▸ Option.some.injEq .. ▸ h
              subst hm1
              exact hset m (fun k _ => rfl) (fun k v hv => hv) (fun hi => hi) r hrp
            · rw [if_neg hpe] at h
              cases hrec : calcElement wps vp fuel pid (stack ++ [id]) m with
              | none =>
                simp only [hrec] at h
                cases h
              | some pr =>
                obtain ⟨pEl, m2⟩ := pr
                simp only [hrec] at h
                obtain ⟨hstk2, hmono2, hinv2⟩ :=
                  ih pid (stack ++ [id]) m pEl m2 hrec
                obtain ⟨r, hrp, hfc⟩ :=
                  finishCalc_spec vp id el (parentRectFrom vp pEl) m2
                rw [hfc] at h
                obtain ⟨hres, hm1⟩ := Prod.mk.injEq .. ▸ Option.some.injEq .. ▸ h
                subst hm1
                exact hset m2
                  (fun k hk => hstk2 k (List.mem_append_left _ hk))
                  hmono2 hinv2 r hrp

/-- A completed top-level `calcElement` call leaves a binding for the
requested id (when the id exists in `wps`). -/
theorem calcElement_complete (wps : List LayoutElement) (vp : Viewport)
    (fuel : Nat) (id : String) (m : FinalMap) (res : Option LayoutElement)
    (m1 : FinalMap) (h : calcElement wps vp (fuel + 1) id [] m = some (res, m1))
    (hfind : (wps.find? fun e => decide (e.id = id)).isSome) :
    ∃ v, mapGet m1 id = some v := by
  rw [calcElement_succ] at h
  cases hm : mapGet m id with
  | some r =>
    simp only [hm] at h
    obtain ⟨hres, hm1⟩ := Prod.mk.injEq .. ▸ Option.some.injEq .. ▸ h
    subst hm1
    exact ⟨r, hm⟩
  | none =>
    simp only [hm] at h
    rw [if_neg (List.not_mem_nil id)] at h
    cases hfind2 : wps.find? fun e => decide (e.id = id) with
    | none =>
      rw [hfind2] at hfind
      simp at hfind
    | some el =>
      simp only [hfind2] at h
      cases hp : (rtOf el).parentId with
      | none =>
        simp only [hp] at h
        obtain ⟨r, hrp, hfc⟩ :=
          finishCalc_spec vp id el ⟨0, 0, vp.width, vp.height⟩ m
        rw [hfc] at h
        obtain ⟨hres, hm1⟩ := Prod.mk.injEq .. ▸ Option.some.injEq .. ▸ h
        subst hm1
        exact ⟨setRuntime el r, mapGet_mapSet_self _ _ _⟩
      | some pid =>
        simp only [hp] at h
        by_cases hpe : pid = ""
        · rw [if_pos hpe] at h
          obtain ⟨r, hrp, hfc⟩ :=
            finishCalc_spec vp id el ⟨0, 0, vp.width, vp.height⟩ m
          rw [hfc] at h
          obtain ⟨hres, hm1⟩ := Prod.mk.injEq .. ▸ Option.some.injEq .. ▸ h
          subst hm1
          exact ⟨setRuntime el r, mapGet_mapSet_self _ _ _⟩
        · rw [if_neg hpe] at h
          cases hrec : calcElement wps vp fuel pid ([] ++ [id]) m with
          | none =>
            simp only [hrec] at h
            cases h
          | some pr =>
            obtain ⟨pEl, m2⟩ := pr
            simp only [hrec] at h
            obtain ⟨r, hrp, hfc⟩ :=
              finishCalc_spec vp id el (parentRectFrom vp pEl) m2
            rw [hfc] at h
            obtain ⟨hres, hm1⟩ := Prod.mk.injEq .. ▸ Option.some.injEq .. ▸ h
            subst hm1
            exact ⟨setRuntime el r, mapGet_mapSet_self _ _ _⟩

/-- The driver produces a well-shaped memo table with a binding for every
element's id. -/
theorem runCalc_facts (wps : List LayoutElement) (vp : Viewport) :
    InvMap wps (runCalc wps vp) ∧
      ∀ el ∈ wps, ∃ v, mapGet (runCalc wps vp) el.id = some v := by
  have main : ∀ (l : List LayoutElement) (m : FinalMap),
      (∀ x ∈ l, x ∈ wps) → InvMap wps m →
        InvMap wps (l.foldl (runCalcStep wps vp) m) ∧
        (∀ k v, mapGet m k = some v →
          mapGet (l.foldl (runCalcStep wps vp) m) k = some v) ∧
        (∀ el ∈ l, ∃ v,
          mapGet (l.foldl (runCalcStep wps vp) m) el.id = some v) := by
    intro l
    induction l with
    | nil =>
      intro m _ hinv
      exact ⟨hinv, fun k v hv => hv, fun el he => absurd he (List.not_mem_nil el)⟩
    | cons a t ih =>
      intro m hsub hinv
      have hane : calcElement wps vp (wps.length + 1) a.id [] m ≠ none := by
        apply calcElement_total
        rw [pendingCount_nil]
        omega
      cases hca : calcElement wps vp (wps.length + 1) a.id [] m with
      | none => exact absurd hca hane
      | some pr =>
        obtain ⟨res, m2⟩ := pr
        have hstep : runCalcStep wps vp m a = m2 := by
          simp [runCalcStep, hca]
        have hfold : (a :: t).foldl (runCalcStep wps vp) m =
            t.foldl (runCalcStep wps vp) m2 := by
          rw [List.foldl_cons, hstep]
        obtain ⟨hstk, hmono, hinvp⟩ :=
          calcElement_map_facts wps vp _ a.id [] m res m2 hca
        have hfind : (wps.find? fun e => decide (e.id = a.id)).isSome := by
          rw [List.find?_isSome]
          exact ⟨a, hsub a (List.mem_cons_self a t), by simp⟩
        obtain ⟨v0, hv0⟩ :=
          calcElement_complete wps vp _ a.id m res m2 hca hfind
        have hrest := ih m2 (fun x hx => hsub x (List.mem_cons_of_mem a hx))
          (hinvp hinv)
        rw [hfold]
        refine ⟨hrest.1, fun k v hv => hrest.2.1 k v (hmono k v hv),
          fun el he => ?_⟩
        rcases List.mem_cons.mp he with heq | hmem2
        · subst heq
          exact ⟨v0, hrest.2.1 el.id v0 hv0⟩
        · exact hrest.2.2 el hmem2
  have h0 : InvMap wps [] := by
    intro k v hv
    cases hv
  obtain ⟨hinv, _, hpres⟩ := main wps [] (fun x hx => hx) h0
  exact ⟨hinv, hpres⟩

/-- Pass 1 keeps the element's identity. -/
theorem estimateElement_id (vp : Viewport) (el : LayoutElement) :
    (estimateElement vp el).id = el.id :=
  rfl

/-- Pass 2 keeps the element's identity. -/
theorem assignParent_id (ests : List LayoutElement) (child : LayoutElement) :
    (assignParent ests child).id = child.id := by
  unfold assignParent
  cases hh : (stableSort candLE (ests.filter fun p => isCandidateParent child p)).head? with
  | none => simp [hh]
  | some p => simp [hh, setRuntime]

/-- Passes 1 + 2 preserve the id sequence. -/
theorem withParents_ids (es : List LayoutElement) (vp : Viewport) :
    (withParents es vp).map (fun e => e.id) = es.map fun e => e.id := by
  unfold withParents estimatedElements
  rw [List.map_map, List.map_map]
  apply List.map_congr_left
  intro el _
  show (assignParent _ (estimateElement vp el)).id = el.id
  rw [assignParent_id, estimateElement_id]

/-- Pass 2 never assigns an element its own id as parent. -/
theorem withParents_no_self (es : List LayoutElement) (vp : Viewport)
    (w : LayoutElement) (hw : w ∈ withParents es vp) (pid : String)
    (hpid : (rtOf w).parentId = some pid) : pid ≠ w.id := by
  unfold withParents at hw
  rcases List.mem_map.mp hw with ⟨c, hc, rfl⟩
  rw [assignParent_parentId] at hpid
  cases hh : (stableSort candLE ((estimatedElements es vp).filter
      fun p => isCandidateParent c p)).head? with
  | none =>
    rw [hh] at hpid
    simp only [Option.elim] at hpid
    rw [mem_estimated_parentId es vp c hc] at hpid
    cases hpid
  | some p =>
    rw [hh] at hpid
    simp only [Option.elim, Option.some.injEq] at hpid
    have hpmem : p ∈ (estimatedElements es vp).filter
        fun q => isCandidateParent c q :=
      (stableSort_mem candLE p _).mp (mem_of_head? hh)
    rw [List.mem_filter] at hpmem
    have hne : p.id ≠ c.id := ((isCandidateParent_iff c p).mp hpmem.2).1
    rw [assignParent_id]
    exact hpid ▸ hne

/-- C10: no element of the pipeline output is its own parent — the
candidate filter excludes the element itself, Pass 3 copies the Pass-2
assignment, and the final lookup returns an entry carrying that
assignment. -/
theorem C10_no_self_parent (es : List LayoutElement) (vp : Viewport)
    (e : LayoutElement) (he : e ∈ calculateRuntimePositions es vp)
    (r : RuntimeRect) (hr : e.runtime = some r) : r.parentId ≠ some e.id := by
  unfold calculateRuntimePositions at he
  rcases List.mem_map.mp he with ⟨el, hel, heq⟩
  obtain ⟨hinv, hpres⟩ := runCalc_facts (withParents es vp) vp
  have hidmem : el.id ∈ (withParents es vp).map fun e => e.id := by
    rw [withParents_ids]
    exact List.mem_map_of_mem _ hel
  rcases List.mem_map.mp hidmem with ⟨w0, hw0, hw0id⟩
  obtain ⟨v, hv⟩ := hpres w0 hw0
  rw [hw0id] at hv
  rw [hv] at heq
  simp only [Option.getD_some] at heq
  obtain ⟨w2, r2, hfindw, hveq, hrp⟩ := hinv el.id v hv
  obtain ⟨hw2mem, hw2pred⟩ := find?_eq_some_facts _ _ _ hfindw
  have hw2id : w2.id = el.id := by simpa using hw2pred
  subst heq
  have hr2 : r = r2 := by
    rw [hveq] at hr
    simp only [setRuntime] at hr
    exact (Option.some.injEq .. ▸ hr).symm
  have heid : v.id = el.id := by
    rw [hveq]
    simp only [setRuntime]
    exact hw2id
  intro hcontra
  rw [hr2, hrp] at hcontra
  have := withParents_no_self es vp w2 hw2mem v.id hcontra
  exact this (heid.trans hw2id.symm)

/-- Closed instance of C10 on a one-element pipeline run. -/
theorem C10_no_self_parent_witness :
    (setRuntime soloEl ⟨0, 0, 10, 10, none⟩ ∈
        calculateRuntimePositions [soloEl] soloViewport ∧
      (setRuntime soloEl ⟨0, 0, 10, 10, none⟩).runtime =
        some ⟨0, 0, 10, 10, none⟩) ∧
      (⟨0, 0, 10, 10, none⟩ : RuntimeRect).parentId ≠
        some (setRuntime soloEl ⟨0, 0, 10, 10, none⟩).id := by
  have hout : calculateRuntimePositions [soloEl] soloViewport =
      [setRuntime soloEl ⟨0, 0, 10, 10, none⟩] := by
    norm_num [calculateRuntimePositions, withParents, estimatedElements,
      estimateElement, assignParent, isCandidateParent, stableSort, stableInsert,
      candLE, compareCand, runCalc, runCalcStep, calcElement, finishCalc,
      parentRectFrom, mapGet, mapSet, rtOf, setRuntime, toPixels, resolveLength,
      convertOffsetToAbsolute, anchorForward, refRectFor, soloEl, soloViewport,
      List.filter, List.find?, List.foldl]
  have hmem : setRuntime soloEl ⟨0, 0, 10, 10, none⟩ ∈
      calculateRuntimePositions [soloEl] soloViewport := by
    rw [hout]
    exact List.mem_cons_self _ _
  exact ⟨⟨hmem, rfl⟩,
    C10_no_self_parent [soloEl] soloViewport _ hmem _ rfl⟩

/-- Overwriting a runtime twice keeps only the last record. -/
theorem setRuntime_setRuntime (el : LayoutElement) (r1 r2 : RuntimeRect) :
    setRuntime (setRuntime el r1) r2 = setRuntime el r2 :=
  rfl

/-- With pairwise distinct ids, searching for the i-th element's id finds
exactly the i-th element. -/
theorem find?_id_nodup (l : List LayoutElement)
    (hnd : (l.map fun e => e.id).Nodup) :
    ∀ (i : Nat) (h : i < l.length),
      l.find? (fun e => decide (e.id = l[i].id)) = some l[i] := by
  induction l with
  | nil =>
    intro i h
    exact absurd h (Nat.not_lt_zero i)
  | cons a t ih =>
    simp only [List.map_cons, List.nodup_cons] at hnd
    obtain ⟨hna, hndt⟩ := hnd
    intro i h
    rcases i with _ | j
    · simp only [List.getElem_cons_zero]
      rw [@List.find?_cons_of_pos _ (fun e => decide (e.id = a.id)) a t (by simp)]
    · simp only [List.getElem_cons_succ]
      have hjt : j < t.length := by
        simp only [List.length_cons] at h
        omega
      have hne : ¬ a.id = t[j].id := by
        intro hc
        exact hna (hc ▸ List.mem_map_of_mem _ (t.getElem_mem hjt))
      rw [@List.find?_cons_of_neg _ (fun e => decide (e.id = t[j].id)) a t
        (by simp [hne])]
      exact ih hndt j hjt

/-- Passes 1 + 2 on one element only replace its runtime. -/
theorem assignParent_estimate_shape (ests : List LayoutElement) (vp : Viewport)
    (el : LayoutElement) :
    ∃ r, assignParent ests (estimateElement vp el) = setRuntime el r := by
  unfold assignParent
  cases hh : (stableSort candLE (ests.filter
      fun p => isCandidateParent (estimateElement vp el) p)).head? with
  | none =>
    simp only [hh]
    exact ⟨_, rfl⟩
  | some p =>
    simp only [hh]
    exact ⟨_, rfl⟩

/-- The pipeline output has the input's length. -/
theorem calcOutput_length (es : List LayoutElement) (vp : Viewport) :
    (calculateRuntimePositions es vp).length = es.length := by
  unfold calculateRuntimePositions
  simp

/-- With unique ids, the i-th output element is the i-th input element
with only its runtime replaced. -/
theorem calcOutput_pointwise (es : List LayoutElement) (vp : Viewport)
    (hnd : (es.map fun e => e.id).Nodup) (i : Nat) (h : i < es.length) :
    ∃ r : RuntimeRect,
      (calculateRuntimePositions es vp)[i]? = some (setRuntime es[i] r) := by
  have hndw : ((withParents es vp).map fun e => e.id).Nodup := by
    rw [withParents_ids]
    exact hnd
  have hlenw : (withParents es vp).length = es.length := by
    have h2 := congrArg List.length (withParents_ids es vp)
    simpa using h2
  have hiw : i < (withParents es vp).length := by omega
  have hwi : (withParents es vp)[i] =
      assignParent (estimatedElements es vp) (estimateElement vp es[i]) := by
    simp [withParents, estimatedElements, List.getElem_map]
  have hwid : (withParents es vp)[i].id = es[i].id := by
    rw [hwi, assignParent_id, estimateElement_id]
  have hfind : (withParents es vp).find?
      (fun e => decide (e.id = es[i].id)) = some (withParents es vp)[i] := by
    have h3 := find?_id_nodup (withParents es vp) hndw i hiw
    rw [hwid] at h3
    exact h3
  obtain ⟨hinv, hpres⟩ := runCalc_facts (withParents es vp) vp
  obtain ⟨v, hv⟩ := hpres (withParents es vp)[i]
    (List.getElem_mem hiw)
  rw [hwid] at hv
  obtain ⟨w2, r2, hfindw2, hveq, hrp⟩ := hinv es[i].id v hv
  have hw2 : w2 = (withParents es vp)[i] := by
    rw [hfind] at hfindw2
    exact (Option.some.injEq .. ▸ hfindw2).symm
  obtain ⟨r1, hshape⟩ :=
    assignParent_estimate_shape (estimatedElements es vp) vp es[i]
  have hv2 : v = setRuntime es[i] r2 := by
    rw [hveq, hw2, hwi, hshape, setRuntime_setRuntime]
  refine ⟨r2, ?_⟩
  unfold calculateRuntimePositions
  rw [List.getElem?_map, List.getElem?_eq_getElem h]
  simp only [Option.map_some']
  rw [hv]
  simp only [Option.getD_some]
  rw [hv2]

/-- C9: with unique ids the pipeline output has the input's length and
order, and every output element is its input element with only the
`_runtime` field (re)populated — id, name, shape kind and layout are
untouched. -/
theorem C9_frame_output_shape (es : List LayoutElement) (vp : Viewport)
    (hnd : (es.map fun e => e.id).Nodup) :
    (calculateRuntimePositions es vp).length = es.length ∧
      ∀ (i : Nat) (h : i < es.length), ∃ r : RuntimeRect,
        (calculateRuntimePositions es vp)[i]? = some (setRuntime es[i] r) :=
  ⟨calcOutput_length es vp, fun i h => calcOutput_pointwise es vp hnd i h⟩

/-- Closed instance of C9 on a one-element pipeline run. -/
theorem C9_frame_output_shape_witness :
    (([soloEl].map fun e => e.id).Nodup ∧ 0 < [soloEl].length) ∧
      (calculateRuntimePositions [soloEl] soloViewport).length =
        [soloEl].length ∧
      ∃ r : RuntimeRect,
        (calculateRuntimePositions [soloEl] soloViewport)[0]? =
          some (setRuntime [soloEl][0] r) :=
  ⟨⟨by simp, by simp⟩,
    (C9_frame_output_shape [soloEl] soloViewport (by simp)).1,
    (C9_frame_output_shape [soloEl] soloViewport (by simp)).2 0 (by simp)⟩

/-- The pipeline ignores any pre-existing runtime on its input: Pass 1
recomputes every `_runtime` from `LayoutConfig` and viewport alone. -/
theorem calc_strip_invariant (es : List LayoutElement) (vp : Viewport) :
    calculateRuntimePositions (es.map stripRuntime) vp =
      calculateRuntimePositions es vp := by
  have hest : estimatedElements (es.map stripRuntime) vp =
      estimatedElements es vp := by
    unfold estimatedElements
    rw [List.map_map]
    apply List.map_congr_left
    intro el _
    rfl
  have hwps : withParents (es.map stripRuntime) vp = withParents es vp := by
    unfold withParents
    rw [hest]
  unfold calculateRuntimePositions
  rw [hwps, List.map_map]
  apply List.map_congr_left
  intro el hel
  show (mapGet (runCalc (withParents es vp) vp) (stripRuntime el).id).getD
      (stripRuntime el) =
    (mapGet (runCalc (withParents es vp) vp) el.id).getD el
  have hid : (stripRuntime el).id = el.id := rfl
  rw [hid]
  obtain ⟨_, hpres⟩ := runCalc_facts (withParents es vp) vp
  have hmem : el.id ∈ (withParents es vp).map fun e => e.id := by
    rw [withParents_ids]
    exact List.mem_map_of_mem _ hel
  rcases List.mem_map.mp hmem with ⟨w0, hw0, hw0id⟩
  obtain ⟨v, hv⟩ := hpres w0 hw0
  rw [hw0id] at hv
  rw [hv]
  simp

/-- Stripping a replaced runtime recovers the stripped original. -/
theorem stripRuntime_setRuntime (el : LayoutElement) (r : RuntimeRect) :
    stripRuntime (setRuntime el r) = stripRuntime el :=
  rfl

/-- With unique ids, stripping the pipeline output recovers the stripped
input: nothing but `_runtime` is touched. -/
theorem calc_strip_output (es : List LayoutElement) (vp : Viewport)
    (hnd : (es.map fun e => e.id).Nodup) :
    (calculateRuntimePositions es vp).map stripRuntime =
      es.map stripRuntime := by
  apply List.ext_getElem?
  intro n
  by_cases hn : n < es.length
  · obtain ⟨r, hr⟩ := calcOutput_pointwise es vp hnd n hn
    rw [List.getElem?_map, List.getElem?_map, hr,
      List.getElem?_eq_getElem hn]
    simp only [Option.map_some']
    rw [stripRuntime_setRuntime]
  · have hlen := calcOutput_length es vp
    rw [List.getElem?_map, List.getElem?_map,
      List.getElem?_eq_none (by omega), List.getElem?_eq_none (by omega)]

/-- C7: the orchestrator is idempotent — feeding its own output back in
(same viewport) returns the very same element list, runtime rectangles
included, because Pass 1 recomputes every `_runtime` from `LayoutConfig`
and viewport alone, ignoring pre-existing runtimes. -/
theorem C7_idempotent (es : List LayoutElement) (vp : Viewport)
    (hnd : (es.map fun e => e.id).Nodup) :
    calculateRuntimePositions (calculateRuntimePositions es vp) vp =
        calculateRuntimePositions es vp ∧
      (calculateRuntimePositions (calculateRuntimePositions es vp) vp).map
          (fun e => e.runtime) =
        (calculateRuntimePositions es vp).map fun e => e.runtime := by
  have hmain : calculateRuntimePositions (calculateRuntimePositions es vp) vp =
      calculateRuntimePositions es vp := by
    calc calculateRuntimePositions (calculateRuntimePositions es vp) vp
        = calculateRuntimePositions
            ((calculateRuntimePositions es vp).map stripRuntime) vp :=
          (calc_strip_invariant (calculateRuntimePositions es vp) vp).symm
      _ = calculateRuntimePositions (es.map stripRuntime) vp := by
          rw [calc_strip_output es vp hnd]
      _ = calculateRuntimePositions es vp := calc_strip_invariant es vp
  exact ⟨hmain, by rw [hmain]⟩

/-- Closed instance of C7 on a one-element pipeline run. -/
theorem C7_idempotent_witness :
    (([soloEl].map fun e => e.id).Nodup) ∧
      calculateRuntimePositions
          (calculateRuntimePositions [soloEl] soloViewport) soloViewport =
        calculateRuntimePositions [soloEl] soloViewport :=
  ⟨by simp, (C7_idempotent [soloEl] soloViewport (by simp)).1⟩

/-- C8 (Scenario A): viewport 1280 × 800; container C resolves to
(0, 0, 640, 400) at root; child D's Pass-1 center is (35, 35), inside C,
so D is parented to C and resolves to (10, 10, 50, 50). -/
theorem C8_scenario_A :
    (calculateRuntimePositions [sceneC, sceneD] sceneViewport).map
        (fun e => e.runtime) =
        [some ⟨0, 0, 640, 400, none⟩, some ⟨10, 10, 50, 50, some "C"⟩] ∧
      (rtOf (estimateElement sceneViewport sceneD)).x +
          (rtOf (estimateElement sceneViewport sceneD)).width / 2 = 35 ∧
      (rtOf (estimateElement sceneViewport sceneD)).y +
          (rtOf (estimateElement sceneViewport sceneD)).height / 2 = 35 := by
  refine ⟨?_, ?_, ?_⟩ <;>
    norm_num [calculateRuntimePositions, withParents, estimatedElements,
      estimateElement, assignParent, isCandidateParent, stableSort, stableInsert,
      candLE, compareCand, runCalc, calcElement, finishCalc, parentRectFrom,
      mapGet, mapSet, rtOf, setRuntime, toPixels, resolveLength, convertOffsetToAbsolute,
      anchorForward, refRectFor, sceneC, sceneD, sceneViewport,
      List.filter, List.find?, List.foldl] <;>
    simp

end LayoutFlow
